import Mathlib

/-!
Verification of the duplicate-transaction detection and reconciliation engine
in `sevdesk_dedup/__init__.py` (functions `find_duplicate_transactions`,
the canonical-selection / classification loop in `main`, the deletion loop in
`main`, and `Accounts.get_or_create_account_id`).

The Python code is shallowly embedded: transactions become a structure with
the fields the engine reads (`id`, `entry_date`, `amount`, `create`,
`paymt_purpose`); `float(str(tx.amount))` is modelled as exact decimal-string
parsing followed by rounding to the nearest IEEE-754 binary64 value
(represented exactly as a rational, round-half-to-even, valid on the normal
finite range which every ledger amount inhabits — overflow and subnormal
behaviour are outside the modelled range); `datetime.fromisoformat(...).date()`
is modelled as a `YYYY-MM-DD` parser with an optional `T`/space-separated
`HH:MM[:SS[.ffff]]` tail (time-zone offsets are outside the modelled range);
the regular expression `Card transaction of \d+\.\d+ \([A-Z]+\)` used with
`re.search` is modelled as an executable substring matcher (maximal munch is
exact here because each repeated class is followed by a character outside the
class, so the regex admits no backtracking); the Python `dict` built by the
grouping loop is modelled by the list of keys in first-insertion order
together with the per-key sublist of transactions in input order, which is
exactly the iteration behaviour of an insertion-ordered dict filled by
appending.
-/

set_option maxHeartbeats 1000000
set_option maxRecDepth 100000

namespace SevdeskDedup

/-- Calendar date, the value of `datetime.date(year, month, day)`. -/
structure Date where
  year : Nat
  month : Nat
  day : Nat
deriving DecidableEq

/-- Gregorian leap-year rule used by `datetime.date` validity checking. -/
def isLeap (y : Nat) : Bool := (y % 4 == 0 && y % 100 != 0) || y % 400 == 0

/-- Number of days in a month, as `datetime.date` validates the day field. -/
def daysInMonth (y m : Nat) : Nat :=
  if m == 2 then (if isLeap y then 29 else 28)
  else if m == 4 || m == 6 || m == 9 || m == 11 then 30
  else 31

/-- Numeric value of a decimal digit character. -/
def dv (c : Char) : Nat := c.toNat - '0'.toNat

/-- Validity of the optional time component accepted after the date by
`datetime.datetime.fromisoformat`: empty, or a `T`/space separator followed by
`HH:MM`, optionally `:SS`, optionally a fractional-seconds part. -/
def validTimeTail : List Char → Bool
  | [] => true
  | sep :: h1 :: h2 :: ':' :: m1 :: m2 :: rest =>
    (sep == 'T' || sep == ' ') && h1.isDigit && h2.isDigit && m1.isDigit && m2.isDigit
      && dv h1 * 10 + dv h2 < 24 && dv m1 * 10 + dv m2 < 60
      && (match rest with
          | [] => true
          | ':' :: s1 :: s2 :: rest2 =>
            s1.isDigit && s2.isDigit && dv s1 * 10 + dv s2 < 60
              && (match rest2 with
                  | [] => true
                  | '.' :: fs => !fs.isEmpty && fs.all Char.isDigit
                  | _ => false)
          | _ => false)
  | _ => false

/-- Model of `datetime.datetime.fromisoformat(str(tx.entry_date)).date()`:
parse `YYYY-MM-DD`, validate it as a calendar date, accept and discard a
valid time component, and reject everything else (the Python call raises
`ValueError`, which the caller turns into a skip). -/
def parseISODate (s : String) : Option Date :=
  match s.toList with
  | y1 :: y2 :: y3 :: y4 :: '-' :: m1 :: m2 :: '-' :: d1 :: d2 :: rest =>
    if y1.isDigit && y2.isDigit && y3.isDigit && y4.isDigit && m1.isDigit && m2.isDigit
        && d1.isDigit && d2.isDigit && validTimeTail rest then
      let y := dv y1 * 1000 + dv y2 * 100 + dv y3 * 10 + dv y4
      let m := dv m1 * 10 + dv m2
      let d := dv d1 * 10 + dv d2
      if 1 ≤ y && 1 ≤ m && m ≤ 12 && 1 ≤ d && d ≤ daysInMonth y m then
        some ⟨y, m, d⟩
      else none
    else none
  | _ => none

/-- Value of a string of decimal digits. -/
def digitsToNat (l : List Char) : Nat := l.foldl (fun acc c => acc * 10 + dv c) 0

/-- Exact rational value of a decimal literal, the mathematical value that
Python's `float(...)` constructor then rounds: optional sign, then either
`digits[.digits]`, `digits.`, or `.digits`.  Anything else (including the
exotic inputs `inf`/`nan`/exponents, which no ledger amount uses) is a parse
failure. -/
def parseDecimal (s : String) : Option ℚ :=
  let l := s.toList
  let sl : ℚ × List Char :=
    match l with
    | '-' :: r => (-1, r)
    | '+' :: r => (1, r)
    | _ => (1, l)
  let ip := sl.2.takeWhile Char.isDigit
  match sl.2.dropWhile Char.isDigit with
  | [] => if ip.isEmpty then none else some (sl.1 * (digitsToNat ip : ℚ))
  | '.' :: l3 =>
    let fp := l3.takeWhile Char.isDigit
    if (l3.dropWhile Char.isDigit).isEmpty then
      if ip.isEmpty && fp.isEmpty then none
      else some (sl.1 * ((digitsToNat ip : ℚ) + (digitsToNat fp : ℚ) / (10 : ℚ) ^ fp.length))
    else none
  | _ => none

/-- Fuelled base-2 logarithm on naturals (structural recursion so that the
kernel can evaluate it on concrete inputs). -/
def nlog2Aux : Nat → Nat → Nat
  | 0, _ => 0
  | f + 1, n => if 2 ≤ n then nlog2Aux f (n / 2) + 1 else 0

/-- Base-2 logarithm, `nlog2 n = ⌊log₂ n⌋` for `1 ≤ n < 2 ^ 300` (the fuel is
capped so that the recursion stays shallow enough for kernel evaluation; the
cap lies far beyond the numerators and denominators that arise from ledger
amounts, which sit inside the normal binary64 range). -/
def nlog2 (n : Nat) : Nat := nlog2Aux 300 n

/-- The rational `2 ^ e` for an integer exponent. -/
def pow2 (e : Int) : ℚ :=
  if 0 ≤ e then ((2 ^ e.toNat : Nat) : ℚ) else ((2 ^ (-e).toNat : Nat) : ℚ)⁻¹

/-- Floor of the base-2 logarithm of a positive rational. -/
def qFloorLog2 (q : ℚ) : Int :=
  let e0 : Int := (nlog2 q.num.toNat : Int) - (nlog2 q.den : Int)
  if q < pow2 e0 then e0 - 1 else e0

/-- Round a rational to the nearest integer, ties to even. -/
def roundHalfEven (q : ℚ) : Int :=
  let n : Int := q.num.fdiv (q.den : Int)
  let r : ℚ := q - (n : ℚ)
  if r < 1 / 2 then n
  else if 1 / 2 < r then n + 1
  else if n % 2 == 0 then n else n + 1

/-- Round a positive rational to the nearest binary64 value (53-bit
significand), returned exactly as a rational. -/
def toDoublePos (q : ℚ) : ℚ :=
  let f : Int := qFloorLog2 q - 52
  ((roundHalfEven (q / pow2 f) : ℚ)) * pow2 f

/-- The binary64 value produced by Python's `float(...)` on a decimal with
the given exact value: round to nearest, ties to even.  Valid on the normal
finite range of binary64, where every ledger amount lives. -/
def toDouble (q : ℚ) : ℚ :=
  if q = 0 then 0
  else if q < 0 then -(toDoublePos (-q))
  else toDoublePos q

/-- Model of `float(str(tx.amount))`: exact decimal parse, then binary64
rounding.  `none` models the `ValueError` that makes the caller skip the
transaction. -/
def pyFloat (s : String) : Option ℚ := (parseDecimal s).map toDouble

/-- One ledger transaction, with the fields the dedup engine reads from
`CheckAccountTransactionModel`.  `entry_date` and `amount` are the raw field
values (`none` models `Unset`/`None`); `create` is the creation timestamp,
used only via order comparisons; `paymt_purpose` is the free-text memo. -/
structure Transaction where
  id : Int
  entry_date : Option String
  amount : Option String
  create : Int
  paymt_purpose : String
deriving DecidableEq

/-- The grouping key computed for one transaction by the loop in
`find_duplicate_transactions`: `(entry-date as a date, amount as a float)`,
or `none` when the transaction is skipped (missing or unparsable field). -/
def txKey (t : Transaction) : Option (Date × ℚ) :=
  match t.entry_date, t.amount with
  | some ds, some amts =>
    match parseISODate ds, pyFloat amts with
    | some d, some q => some (d, q)
    | _, _ => none
  | _, _ => none

/-- Keys of the Python `defaultdict` in first-insertion order, which is the
iteration order of `grouped_transactions.items()`. -/
def firstSeen (ks : List (Date × ℚ)) : List (Date × ℚ) :=
  ks.foldl (fun acc k => if k ∈ acc then acc else acc ++ [k]) []

/-- The member list of one group: the transactions whose key equals `k`, in
input order (the order in which the loop appended them). -/
def groupOf (l : List Transaction) (k : Date × ℚ) : List Transaction :=
  l.filter (fun t => decide (txKey t = some k))

/-- `find_duplicate_transactions`: group by `(date, amount)` and keep the
groups with more than one member, in key-insertion order. -/
def find_duplicate_transactions (l : List Transaction) :
    List ((Date × ℚ) × List Transaction) :=
  (firstSeen (l.filterMap txKey)).filterMap (fun k =>
    if 2 ≤ (groupOf l k).length then some (k, groupOf l k) else none)

/-- The `skipped_count` reported by `find_duplicate_transactions`: number of
transactions with a missing or unparsable date or amount. -/
def skippedCount (l : List Transaction) : Nat :=
  (l.filter (fun t => (txKey t).isNone)).length

/-- The character class `[A-Z]` of the card-settlement regular expression. -/
def isUpperAZ (c : Char) : Bool := 'A' ≤ c && c ≤ 'Z'

/-- Match a literal character sequence at the start of the input, returning
the unconsumed remainder on success. -/
def matchLit : List Char → List Char → Option (List Char)
  | [], l => some l
  | _ :: _, [] => none
  | c :: cs, x :: xs => if x = c then matchLit cs xs else none

/-- The literal part of the pattern `Card transaction of \d+\.\d+ \([A-Z]+\)`. -/
def litCard : List Char := "Card transaction of ".toList

/-- Consume one expected character, returning the remainder on success. -/
def expectChar (c : Char) : List Char → Option (List Char)
  | x :: xs => if x = c then some xs else none
  | [] => none

/-- Match `\d+\.\d+ \([A-Z]+\)` at the start of the input.  Maximal munch is
exact here: each repetition is followed by a character outside its class
(`.` and a space after `\d+`, `)` after `[A-Z]+`), so the greedy regex engine
accepts at a position iff this function does. -/
def matchAmountCur (l : List Char) : Bool :=
  let d1 := l.takeWhile Char.isDigit
  match expectChar '.' (l.dropWhile Char.isDigit) with
  | none => false
  | some r2 =>
    let d2 := r2.takeWhile Char.isDigit
    match expectChar ' ' (r2.dropWhile Char.isDigit) with
    | none => false
    | some r3 =>
      match expectChar '(' r3 with
      | none => false
      | some r4 =>
        let cs := r4.takeWhile isUpperAZ
        match expectChar ')' (r4.dropWhile isUpperAZ) with
        | none => false
        | some _ => !d1.isEmpty && !d2.isEmpty && !cs.isEmpty

/-- Match the full card pattern at the start of the input. -/
def matchCardAt (l : List Char) : Bool :=
  match matchLit litCard l with
  | some rest => matchAmountCur rest
  | none => false

/-- Try the card pattern at every start position, as `re.search` does. -/
def searchCard : List Char → Bool
  | [] => false
  | c :: rest => matchCardAt (c :: rest) || searchCard rest

/-- Model of `re.search(r"Card transaction of \d+\.\d+ \([A-Z]+\)", s)`
returning whether a match exists. -/
def cardPattern (s : String) : Bool := searchCard s.toList

/-- Declarative shape of a card-pattern match: the purpose contains, as a
substring, the literal `Card transaction of ` followed by one or more digits,
a dot, one or more digits, a space, and one or more uppercase letters inside
parentheses. -/
def CardShape (s : String) : Prop :=
  ∃ pre d1 d2 cs post,
    s.toList = pre ++ litCard ++ d1 ++ '.' :: (d2 ++ ' ' :: '(' :: (cs ++ ')' :: post))
    ∧ d1 ≠ [] ∧ d2 ≠ [] ∧ cs ≠ []
    ∧ (∀ c ∈ d1, Char.isDigit c = true) ∧ (∀ c ∈ d2, Char.isDigit c = true)
    ∧ (∀ c ∈ cs, isUpperAZ c = true)

/-- Modelled from the spec: the spec describes rule 1 as matching "a decimal
amount and a three-letter currency code in parentheses", i.e. the same
pattern with the currency run required to have exactly three letters.  Used
only to compare the spec's wording with the code's `[A-Z]+`. -/
def matchAmountCurThreeLetter (l : List Char) : Bool :=
  let d1 := l.takeWhile Char.isDigit
  match expectChar '.' (l.dropWhile Char.isDigit) with
  | none => false
  | some r2 =>
    let d2 := r2.takeWhile Char.isDigit
    match expectChar ' ' (r2.dropWhile Char.isDigit) with
    | none => false
    | some r3 =>
      match expectChar '(' r3 with
      | none => false
      | some r4 =>
        let cs := r4.takeWhile isUpperAZ
        match expectChar ')' (r4.dropWhile isUpperAZ) with
        | none => false
        | some _ => !d1.isEmpty && !d2.isEmpty && cs.length == 3

/-- Modelled from the spec: search for the three-letter variant of the card
pattern at every start position. -/
def searchCardThreeLetter : List Char → Bool
  | [] => false
  | c :: rest =>
    (match matchLit litCard (c :: rest) with
     | some r => matchAmountCurThreeLetter r
     | none => false) || searchCardThreeLetter rest

/-- Modelled from the spec: rule-1 matcher as the spec words it, with a
three-letter currency code. -/
def cardPatternSpecThreeLetter (s : String) : Bool :=
  searchCardThreeLetter s.toList

/-- One step of the `earliest_tx` loop in `main`: keep the current earliest
unless the next transaction was created strictly earlier. -/
def canonStep (earliest : Option Transaction) (tx : Transaction) : Option Transaction :=
  match earliest with
  | none => some tx
  | some e => if tx.create < e.create then some tx else some e

/-- The canonical ("original") member of a group: the `earliest_tx` loop in
`main`, i.e. the first member attaining the minimum `create`. -/
def selectCanonical (g : List Transaction) : Option Transaction :=
  g.foldl canonStep none

/-- The classification test applied in `main` to a member `tx` against the
canonical `e`: the member is examined only when created strictly later than
the canonical, and is then a duplicate iff its purpose matches the card
pattern (rule 1) or equals the canonical's purpose (rule 2). -/
def isDupOf (e tx : Transaction) : Bool :=
  e.create < tx.create
    && (cardPattern tx.paymt_purpose || decide (tx.paymt_purpose = e.paymt_purpose))

/-- The IDs a single group contributes to `transactions_to_delete_ids`, in
input order. -/
def duplicatesInGroup (g : List Transaction) : List Int :=
  match selectCanonical g with
  | none => []
  | some e => (g.filter (isDupOf e)).map Transaction.id

/-- `transactions_to_delete_ids` as accumulated over all duplicate groups in
iteration order: the reconciliation plan. -/
def reconciliationPlan (l : List Transaction) : List Int :=
  (find_duplicate_transactions l).flatMap (fun kg => duplicatesInGroup kg.2)

/-- Outcome of the confirmation-and-deletion phase of `main`. -/
inductive GateOutcome where
  | emptyPlan : GateOutcome
  | dryRunReport : Nat → GateOutcome
  | executed : Nat → Nat → GateOutcome
  | declined : GateOutcome
deriving DecidableEq

/-- The deletion loop of `main`: attempt every ID in plan order; a sink
success increments `deleted_count`, a sink failure increments `failed_count`
and the loop continues.  Returns the attempted IDs in order together with the
two counters. -/
def runDeletions (sink : Int → Bool) (plan : List Int) : List Int × Nat × Nat :=
  plan.foldl
    (fun acc txId =>
      if sink txId then (acc.1 ++ [txId], acc.2.1 + 1, acc.2.2)
      else (acc.1 ++ [txId], acc.2.1, acc.2.2 + 1))
    ([], 0, 0)

/-- The confirmation-and-deletion phase of `main`: empty plan returns at
once; `--dry-run` reports the plan size and returns before any deletion call;
otherwise the confirmed batch runs (or is declined).  The second component is
the list of transaction IDs for which a deletion call was issued. -/
def executionGate (dryRun confirm : Bool) (sink : Int → Bool) (plan : List Int) :
    GateOutcome × List Int :=
  if plan.isEmpty then (.emptyPlan, [])
  else if dryRun then (.dryRunReport plan.length, [])
  else if confirm then
    let r := runDeletions sink plan
    (.executed r.2.1 r.2.2, r.1)
  else (.declined, [])

/-- Result of `Accounts.get_or_create_account_id`: an existing account was
found, a new one was created, or `die` was called (process exit 1 with the
given message). -/
inductive ResolveResult where
  | found : Int → ResolveResult
  | created : Int → ResolveResult
  | died : String → ResolveResult
deriving DecidableEq

/-- `Accounts._generate_account_name`. -/
def generate_account_name (identifier currency : String) : String :=
  "Wise (" ++ currency ++ ", " ++ identifier ++ ")"

/-- `Accounts.get_or_create_account_id` on the first call of a run (the
`account_map` memo is empty then): look the generated name up in the cache of
fetched accounts (`byName`), then in a fresh name-filtered fetch (`refetch`);
if neither knows the name, a dry run dies, otherwise the account is created
(`createResult` is the ID returned by the create call, `none` modelling a
create failure, which also dies). -/
def get_or_create_account_id (byName refetch : String → Option Int)
    (createResult : Option Int) (dry_run : Bool) (identifier currency : String) :
    ResolveResult :=
  let target_name := generate_account_name identifier currency
  match byName target_name with
  | some i => .found i
  | none =>
    match refetch target_name with
    | some i => .found i
    | none =>
      if dry_run then .died "Cannot proceed in dry run without an existing account."
      else
        match createResult with
        | some i => .created i
        | none => .died "Failed to create account"

/-- Observable result of a `main` run after account resolution. -/
inductive MainResult where
  | exited : Nat → MainResult
  | noTransactions : MainResult
  | ran : List Int → GateOutcome × List Int → MainResult

/-- The part of `main` that depends on the modelled state: a failed account
resolution exits with code 1 before any transaction is fetched or analysed;
otherwise the fetched transactions are analysed and the plan handed to the
execution gate. -/
def mainModel (resolve : ResolveResult) (txs : List Transaction)
    (dryRun confirm : Bool) (sink : Int → Bool) : MainResult :=
  match resolve with
  | .died _ => .exited 1
  | .found _ =>
    if txs.isEmpty then .noTransactions
    else .ran (reconciliationPlan txs) (executionGate dryRun confirm sink (reconciliationPlan txs))
  | .created _ =>
    if txs.isEmpty then .noTransactions
    else .ran (reconciliationPlan txs) (executionGate dryRun confirm sink (reconciliationPlan txs))

/-- Sample transaction: card-settlement purpose, created at time 3. -/
def txCardEarly : Transaction :=
  ⟨1, some "2024-03-01", some "-42.00", 3, "Card transaction of 42.00 (EUR)"⟩

/-- Sample transaction: card-settlement purpose, created at time 5. -/
def txCardLate : Transaction :=
  ⟨1, some "2024-03-01", some "-42.00", 5, "Card transaction of 42.00 (EUR)"⟩

/-- Sample transaction: plain purpose, created at time 3. -/
def txRentEarly : Transaction :=
  ⟨2, some "2024-03-01", some "-42.00", 3, "Rent"⟩

/-- Sample transaction: plain purpose, created at time 5. -/
def txRentLate : Transaction :=
  ⟨2, some "2024-03-01", some "-42.00", 5, "Rent"⟩

/-- Sample transaction: purpose `Coffee`, created at time 3. -/
def txCoffeeEarly : Transaction :=
  ⟨1, some "2024-03-01", some "-42.00", 3, "Coffee"⟩

/-- Sample transaction: purpose `Coffee`, created at time 6. -/
def txCoffeeLate : Transaction :=
  ⟨2, some "2024-03-01", some "-42.00", 6, "Coffee"⟩

/-- Sample transaction: purpose `Coffee`, created at time 3, distinct ID. -/
def txCoffeeTie : Transaction :=
  ⟨2, some "2024-03-01", some "-42.00", 3, "Coffee"⟩

/-! ### Helper lemmas about the regular-expression model -/

lemma takeWhile_app (p : Char → Bool) (d : List Char) (b : Char) (r : List Char)
    (hd : ∀ c ∈ d, p c = true) (hb : p b = false) :
    (d ++ b :: r).takeWhile p = d := by
  induction d with
  | nil => simp [List.takeWhile_cons, hb]
  | cons x xs ih =>
    have hx : p x = true := hd x (by simp)
    simp only [List.cons_append, List.takeWhile_cons, hx, if_true]
    rw [ih (fun c hc => hd c (by simp [hc]))]

lemma dropWhile_app (p : Char → Bool) (d : List Char) (b : Char) (r : List Char)
    (hd : ∀ c ∈ d, p c = true) (hb : p b = false) :
    (d ++ b :: r).dropWhile p = b :: r := by
  induction d with
  | nil => simp [List.dropWhile_cons, hb]
  | cons x xs ih =>
    have hx : p x = true := hd x (by simp)
    simp only [List.cons_append, List.dropWhile_cons, hx, if_true]
    exact ih (fun c hc => hd c (by simp [hc]))

lemma expectChar_eq_some_iff (c : Char) (l r : List Char) :
    expectChar c l = some r ↔ l = c :: r := by
  cases l with
  | nil => simp [expectChar]
  | cons x xs =>
    by_cases hx : x = c
    · subst hx; simp [expectChar]
    · simp [expectChar, hx]

lemma expectChar_cons_self (c : Char) (xs : List Char) :
    expectChar c (c :: xs) = some xs := by
  simp [expectChar]

lemma matchLit_eq_some_iff (lit l r : List Char) :
    matchLit lit l = some r ↔ l = lit ++ r := by
  induction lit generalizing l with
  | nil => simp [matchLit]
  | cons c cs ih =>
    cases l with
    | nil => simp [matchLit]
    | cons x xs =>
      by_cases hx : x = c
      · subst hx; simp [matchLit, ih]
      · simp [matchLit, hx]

lemma matchAmountCur_eq_true_iff (l : List Char) :
    matchAmountCur l = true ↔
    ∃ d1 d2 cs post,
      l = d1 ++ '.' :: (d2 ++ ' ' :: '(' :: (cs ++ ')' :: post))
      ∧ d1 ≠ [] ∧ d2 ≠ [] ∧ cs ≠ []
      ∧ (∀ c ∈ d1, Char.isDigit c = true) ∧ (∀ c ∈ d2, Char.isDigit c = true)
      ∧ (∀ c ∈ cs, isUpperAZ c = true) := by
  constructor
  · intro h
    unfold matchAmountCur at h
    cases h2 : expectChar '.' (l.dropWhile Char.isDigit) with
    | none => simp [h2] at h
    | some r2 =>
      simp only [h2] at h
      cases h3 : expectChar ' ' (r2.dropWhile Char.isDigit) with
      | none => simp [h3] at h
      | some r3 =>
        simp only [h3] at h
        cases h4 : expectChar '(' r3 with
        | none => simp [h4] at h
        | some r4 =>
          simp only [h4] at h
          cases h5 : expectChar ')' (r4.dropWhile isUpperAZ) with
          | none => simp [h5] at h
          | some r5 =>
            simp only [h5, Bool.and_eq_true, Bool.not_eq_true', List.isEmpty_eq_false] at h
            refine ⟨l.takeWhile Char.isDigit, r2.takeWhile Char.isDigit,
              r4.takeWhile isUpperAZ, r5, ?_, h.1.1, h.1.2, h.2, ?_, ?_, ?_⟩
            · rw [expectChar_eq_some_iff] at h2 h3 h4 h5
              conv_lhs => rw [← List.takeWhile_append_dropWhile (p := Char.isDigit) (l := l)]
              rw [h2]
              conv_lhs =>
                rw [← List.takeWhile_append_dropWhile (p := Char.isDigit) (l := r2)]
              rw [h3, h4]
              conv_lhs =>
                rw [← List.takeWhile_append_dropWhile (p := isUpperAZ) (l := r4)]
              rw [h5]
            · exact fun c hc => List.mem_takeWhile_imp hc
            · exact fun c hc => List.mem_takeWhile_imp hc
            · exact fun c hc => List.mem_takeWhile_imp hc
  · rintro ⟨d1, d2, cs, post, rfl, h1, h2, h3, hd1, hd2, hcs⟩
    have e1 := takeWhile_app Char.isDigit d1 '.' (d2 ++ ' ' :: '(' :: (cs ++ ')' :: post)) hd1 (by decide)
    have e2 := dropWhile_app Char.isDigit d1 '.' (d2 ++ ' ' :: '(' :: (cs ++ ')' :: post)) hd1 (by decide)
    have e3 := takeWhile_app Char.isDigit d2 ' ' ('(' :: (cs ++ ')' :: post)) hd2 (by decide)
    have e4 := dropWhile_app Char.isDigit d2 ' ' ('(' :: (cs ++ ')' :: post)) hd2 (by decide)
    have e5 := takeWhile_app isUpperAZ cs ')' post hcs (by decide)
    have e6 := dropWhile_app isUpperAZ cs ')' post hcs (by decide)
    simp [matchAmountCur, e1, e2, e3, e4, e5, e6, expectChar_cons_self, h1, h2, h3]

lemma matchCardAt_eq_true_iff (l : List Char) :
    matchCardAt l = true ↔
    ∃ tail, l = litCard ++ tail ∧ matchAmountCur tail = true := by
  unfold matchCardAt
  cases h : matchLit litCard l with
  | none =>
    simp only [Bool.false_eq_true, false_iff]
    rintro ⟨tail, rfl, _⟩
    rw [(matchLit_eq_some_iff litCard (litCard ++ tail) tail).mpr rfl] at h
    exact Option.noConfusion h
  | some rest =>
    rw [matchLit_eq_some_iff] at h
    subst h
    constructor
    · intro hm; exact ⟨rest, rfl, hm⟩
    · rintro ⟨tail, heq, hm⟩
      have : rest = tail := List.append_cancel_left heq
      rwa [this]

lemma searchCard_eq_true_iff (l : List Char) :
    searchCard l = true ↔ ∃ pre rest, l = pre ++ rest ∧ matchCardAt rest = true := by
  induction l with
  | nil =>
    simp only [searchCard, Bool.false_eq_true, false_iff]
    rintro ⟨pre, rest, heq, hm⟩
    rcases List.append_eq_nil.mp heq.symm with ⟨rfl, rfl⟩
    simp [matchCardAt, matchLit, litCard] at hm
  | cons c cs ih =>
    simp only [searchCard, Bool.or_eq_true, ih]
    constructor
    · rintro (h | ⟨pre, rest, rfl, hm⟩)
      · exact ⟨[], c :: cs, rfl, h⟩
      · exact ⟨c :: pre, rest, rfl, hm⟩
    · rintro ⟨pre, rest, heq, hm⟩
      cases pre with
      | nil => left; rw [List.nil_append] at heq; rwa [heq]
      | cons p ps =>
        right
        rw [List.cons_append] at heq
        injection heq with hc ht
        exact ⟨ps, rest, ht, hm⟩

/-- The executable card-pattern matcher accepts exactly the strings of
`CardShape`. -/
lemma cardPattern_iff_CardShape (s : String) :
    cardPattern s = true ↔ CardShape s := by
  unfold cardPattern CardShape
  rw [searchCard_eq_true_iff]
  constructor
  · rintro ⟨pre, rest, heq, hm⟩
    rw [matchCardAt_eq_true_iff] at hm
    obtain ⟨tail, rfl, hm⟩ := hm
    rw [matchAmountCur_eq_true_iff] at hm
    obtain ⟨d1, d2, cs, post, rfl, h1, h2, h3, hd1, hd2, hcs⟩ := hm
    exact ⟨pre, d1, d2, cs, post, by rw [heq]; simp only [List.append_assoc], h1, h2, h3, hd1, hd2, hcs⟩
  · rintro ⟨pre, d1, d2, cs, post, heq, h1, h2, h3, hd1, hd2, hcs⟩
    refine ⟨pre, litCard ++ (d1 ++ '.' :: (d2 ++ ' ' :: '(' :: (cs ++ ')' :: post))), ?_, ?_⟩
    · rw [heq]; simp only [List.append_assoc]
    · rw [matchCardAt_eq_true_iff]
      refine ⟨d1 ++ '.' :: (d2 ++ ' ' :: '(' :: (cs ++ ')' :: post)), rfl, ?_⟩
      rw [matchAmountCur_eq_true_iff]
      exact ⟨d1, d2, cs, post, rfl, h1, h2, h3, hd1, hd2, hcs⟩

/-! ### Helper lemmas about grouping, canonical selection and deletion -/

lemma mem_foldl_insert (ks : List (Date × ℚ)) (acc : List (Date × ℚ)) (k : Date × ℚ) :
    (k ∈ ks.foldl (fun acc k' => if k' ∈ acc then acc else acc ++ [k']) acc) ↔
      k ∈ acc ∨ k ∈ ks := by
  induction ks generalizing acc with
  | nil => simp
  | cons a as ih =>
    simp only [List.foldl_cons, ih, List.mem_cons]
    by_cases ha : a ∈ acc
    · rw [if_pos ha]
      constructor
      · rintro (h | h)
        · exact Or.inl h
        · exact Or.inr (Or.inr h)
      · rintro (h | rfl | h)
        · exact Or.inl h
        · exact Or.inl ha
        · exact Or.inr h
    · rw [if_neg ha]
      simp only [List.mem_append, List.mem_singleton, or_assoc]

lemma mem_firstSeen (ks : List (Date × ℚ)) (k : Date × ℚ) :
    k ∈ firstSeen ks ↔ k ∈ ks := by
  unfold firstSeen
  rw [mem_foldl_insert]
  simp

lemma mem_groupOf (l : List Transaction) (k : Date × ℚ) (t : Transaction) :
    t ∈ groupOf l k ↔ t ∈ l ∧ txKey t = some k := by
  simp [groupOf, List.mem_filter]

lemma find_dup_mem_iff (l : List Transaction) (k : Date × ℚ) (g : List Transaction) :
    (k, g) ∈ find_duplicate_transactions l ↔
      k ∈ l.filterMap txKey ∧ g = groupOf l k ∧ 2 ≤ (groupOf l k).length := by
  unfold find_duplicate_transactions
  rw [List.mem_filterMap]
  constructor
  · rintro ⟨a, ha, hsome⟩
    by_cases h2 : 2 ≤ (groupOf l a).length
    · rw [if_pos h2] at hsome
      simp only [Option.some.injEq, Prod.mk.injEq] at hsome
      obtain ⟨rfl, rfl⟩ := hsome
      exact ⟨(mem_firstSeen _ _).mp ha, rfl, h2⟩
    · rw [if_neg h2] at hsome
      exact absurd hsome (by simp)
  · rintro ⟨hk, rfl, h2⟩
    exact ⟨k, (mem_firstSeen _ _).mpr hk, by rw [if_pos h2]⟩

lemma two_le_length_of_two_mem {α : Type} {a b : α} {l : List α}
    (ha : a ∈ l) (hb : b ∈ l) (hne : a ≠ b) : 2 ≤ l.length := by
  cases l with
  | nil => simp at ha
  | cons x xs =>
    cases xs with
    | nil =>
      simp at ha hb
      exact absurd (ha.trans hb.symm) hne
    | cons y ys =>
      simp only [List.length_cons]
      omega

lemma canonAux (l : List Transaction) : ∀ e : Transaction,
    ∃ pre c post, l.foldl canonStep (some e) = some c ∧ e :: l = pre ++ c :: post
      ∧ (∀ t ∈ pre, c.create < t.create) ∧ (∀ t ∈ post, c.create ≤ t.create) := by
  induction l with
  | nil =>
    intro e
    exact ⟨[], e, [], rfl, rfl, by simp, by simp⟩
  | cons t l ih =>
    intro e
    simp only [List.foldl_cons]
    by_cases h : t.create < e.create
    · have hstep : canonStep (some e) t = some t := by simp [canonStep, h]
      rw [hstep]
      obtain ⟨pre, c, post, hfold, hdec, hpre, hpost⟩ := ih t
      have hc_le_t : c.create ≤ t.create := by
        cases pre with
        | nil =>
          rw [List.nil_append] at hdec
          injection hdec with h1 _
          rw [h1]
        | cons p ps =>
          rw [List.cons_append] at hdec
          injection hdec with h1 _
          have hp := hpre p (by simp)
          rw [← h1] at hp
          exact le_of_lt hp
      refine ⟨e :: pre, c, post, hfold, ?_, ?_, hpost⟩
      · rw [List.cons_append, ← hdec]
      · intro x hx
        rcases List.mem_cons.mp hx with rfl | hx'
        · exact lt_of_le_of_lt hc_le_t h
        · exact hpre x hx'
    · have hstep : canonStep (some e) t = some e := by simp [canonStep, h]
      rw [hstep]
      obtain ⟨pre, c, post, hfold, hdec, hpre, hpost⟩ := ih e
      cases pre with
      | nil =>
        rw [List.nil_append] at hdec
        injection hdec with h1 h2
        refine ⟨[], c, t :: post, hfold, ?_, by simp, ?_⟩
        · rw [List.nil_append, ← h1, h2]
        · intro x hx
          rcases List.mem_cons.mp hx with rfl | hx'
          · rw [← h1]
            exact le_of_not_lt h
          · exact hpost x hx'
      | cons p ps =>
        rw [List.cons_append] at hdec
        injection hdec with h1 h2
        have hce : c.create < e.create := by
          have hp := hpre p (by simp)
          rw [← h1] at hp
          exact hp
        refine ⟨e :: t :: ps, c, post, hfold, ?_, ?_, hpost⟩
        · rw [List.cons_append, List.cons_append, h2]
        · intro x hx
          rcases List.mem_cons.mp hx with rfl | hx'
          · exact hce
          · rcases List.mem_cons.mp hx' with rfl | hx''
            · exact lt_of_lt_of_le hce (le_of_not_lt h)
            · exact hpre x (List.mem_cons_of_mem p hx'')

lemma selectCanonical_spec (g : List Transaction) (hg : g ≠ []) :
    ∃ pre c post, selectCanonical g = some c ∧ g = pre ++ c :: post
      ∧ (∀ t ∈ pre, c.create < t.create) ∧ (∀ t ∈ post, c.create ≤ t.create) := by
  cases g with
  | nil => exact absurd rfl hg
  | cons e l =>
    unfold selectCanonical
    simp only [List.foldl_cons]
    have hstep : canonStep none e = some e := rfl
    rw [hstep]
    exact canonAux l e

lemma selectCanonical_mem {g : List Transaction} {c : Transaction}
    (h : selectCanonical g = some c) : c ∈ g := by
  have hg : g ≠ [] := by
    rintro rfl
    simp [selectCanonical] at h
  obtain ⟨pre, c', post, hsel, hdec, _, _⟩ := selectCanonical_spec g hg
  rw [h] at hsel
  injection hsel with h1
  rw [← h1] at hdec
  rw [hdec]
  simp

lemma selectCanonical_min {g : List Transaction} {c : Transaction}
    (h : selectCanonical g = some c) : ∀ t ∈ g, c.create ≤ t.create := by
  have hg : g ≠ [] := by
    rintro rfl
    simp [selectCanonical] at h
  obtain ⟨pre, c', post, hsel, hdec, hpre, hpost⟩ := selectCanonical_spec g hg
  rw [h] at hsel
  injection hsel with h1
  subst h1
  intro t ht
  rw [hdec] at ht
  rcases List.mem_append.mp ht with ht' | ht'
  · exact le_of_lt (hpre t ht')
  · rcases List.mem_cons.mp ht' with rfl | ht''
    · exact le_refl _
    · exact hpost t ht''

lemma runDeletions_go (sink : Int → Bool) (plan : List Int) :
    ∀ acc : List Int × Nat × Nat,
      plan.foldl
        (fun acc txId =>
          if sink txId then (acc.1 ++ [txId], acc.2.1 + 1, acc.2.2)
          else (acc.1 ++ [txId], acc.2.1, acc.2.2 + 1)) acc =
      (acc.1 ++ plan, acc.2.1 + (plan.filter sink).length,
        acc.2.2 + (plan.filter (fun x => !(sink x))).length) := by
  induction plan with
  | nil =>
    intro acc
    simp
  | cons a as ih =>
    intro acc
    simp only [List.foldl_cons]
    by_cases ha : sink a
    · rw [if_pos ha, ih, List.filter_cons_of_pos ha,
        List.filter_cons_of_neg (by simp [ha])]
      simp only [List.length_cons, List.append_assoc, List.singleton_append, Prod.mk.injEq]
      refine ⟨trivial, by omega, trivial⟩
    · rw [if_neg ha, ih, List.filter_cons_of_neg ha,
        List.filter_cons_of_pos (by simp [Bool.not_eq_true] at ha ⊢; exact ha)]
      simp only [List.length_cons, List.append_assoc, List.singleton_append, Prod.mk.injEq]
      refine ⟨trivial, trivial, by omega⟩

lemma runDeletions_eq (sink : Int → Bool) (plan : List Int) :
    runDeletions sink plan =
      (plan, (plan.filter sink).length, (plan.filter (fun x => !(sink x))).length) := by
  unfold runDeletions
  rw [runDeletions_go]
  simp

lemma length_filter_split (p : Int → Bool) (l : List Int) :
    (l.filter p).length + (l.filter (fun x => !(p x))).length = l.length := by
  induction l with
  | nil => simp
  | cons a as ih =>
    by_cases ha : p a
    · rw [List.filter_cons_of_pos ha,
        List.filter_cons_of_neg (by simp [ha])]
      simp only [List.length_cons]
      omega
    · rw [List.filter_cons_of_neg ha,
        List.filter_cons_of_pos (by simp [Bool.not_eq_true] at ha ⊢; exact ha)]
      simp only [List.length_cons]
      omega

lemma length_filter_eq_single {l : List Int} (hnd : l.Nodup) {a : Int} (ha : a ∈ l) :
    (l.filter (fun x => decide (x = a))).length = 1 := by
  induction l with
  | nil => simp at ha
  | cons x xs ih =>
    rcases List.mem_cons.mp ha with rfl | ha'
    · rw [List.filter_cons_of_pos (by simp)]
      have hnotin : a ∉ xs := (List.nodup_cons.mp hnd).1
      have hnil : xs.filter (fun x => decide (x = a)) = [] := by
        rw [List.filter_eq_nil_iff]
        intro b hb
        simp only [decide_eq_true_eq]
        rintro rfl
        exact hnotin hb
      simp [hnil]
    · have hx : x ≠ a := fun h => (List.nodup_cons.mp hnd).1 (h ▸ ha')
      rw [List.filter_cons_of_neg (by simp [hx])]
      exact ih (List.nodup_cons.mp hnd).2 ha'

lemma find_dup_pair (t1 t2 : Transaction) (k : Date × ℚ)
    (h1 : txKey t1 = some k) (h2 : txKey t2 = some k) :
    find_duplicate_transactions [t1, t2] = [(k, [t1, t2])] := by
  have hgrp : groupOf [t1, t2] k = [t1, t2] := by
    unfold groupOf
    rw [List.filter_cons_of_pos (by simp [h1]), List.filter_cons_of_pos (by simp [h2])]
    simp
  have hfm : [t1, t2].filterMap txKey = [k, k] := by
    simp [List.filterMap_cons, h1, h2]
  have hfs : firstSeen [k, k] = [k] := by
    simp [firstSeen]
  unfold find_duplicate_transactions
  rw [hfm, hfs]
  simp [hgrp]

lemma mem_dupGroup_iff {g : List Transaction} {c : Transaction}
    (hc : selectCanonical g = some c) (hnd : (g.map Transaction.id).Nodup)
    {m : Transaction} (hm : m ∈ g) :
    m.id ∈ duplicatesInGroup g ↔ isDupOf c m = true := by
  unfold duplicatesInGroup
  rw [hc]
  simp only [List.mem_map]
  constructor
  · rintro ⟨m', hm', hid⟩
    rw [List.mem_filter] at hm'
    have heq : m' = m := List.inj_on_of_nodup_map hnd hm'.1 hm hid
    rw [← heq]
    exact hm'.2
  · intro h
    exact ⟨m, List.mem_filter.mpr ⟨hm, h⟩, rfl⟩

/-! ### Claim C1 -/

/-- Claim C1 counterexample: two transactions with the same date and amount,
the card-pattern member created FIRST (time 3) and the plain member second
(time 5).  The claim says the classifier flags the card-pattern member
regardless of which was created first, but the code forms the group and then
flags nothing: the only member examined (the one created strictly later) has
a non-matching purpose different from the canonical's. -/
theorem claim_C1_counterexample :
    cardPattern "Card transaction of 42.00 (EUR)" = true
    ∧ cardPattern "Rent" = false
    ∧ find_duplicate_transactions [txCardEarly, txRentLate] =
        [((⟨2024, 3, 1⟩, (-42 : ℚ)), [txCardEarly, txRentLate])]
    ∧ reconciliationPlan [txCardEarly, txRentLate] = [] := by
  refine ⟨by decide, by decide, by with_unfolding_all decide, by with_unfolding_all decide⟩

/-- Claim C1 (amended): for a group of exactly two transactions with the same
grouping key where one member's purpose matches the card pattern and the
other's does not, the card-pattern member is flagged as a duplicate iff it
has the STRICTLY LATER `create` timestamp; when it was created earlier (or at
the same instant) nothing is flagged. -/
theorem claim_C1_theorem (t1 t2 : Transaction) (k : Date × ℚ)
    (h1 : txKey t1 = some k) (h2 : txKey t2 = some k)
    (hcard1 : cardPattern t1.paymt_purpose = true)
    (hcard2 : cardPattern t2.paymt_purpose = false) :
    reconciliationPlan [t1, t2] = if t2.create < t1.create then [t1.id] else [] := by
  unfold reconciliationPlan
  rw [find_dup_pair t1 t2 k h1 h2]
  simp only [List.flatMap_cons, List.flatMap_nil, List.append_nil]
  unfold duplicatesInGroup selectCanonical
  simp only [List.foldl_cons, List.foldl_nil]
  have hstep1 : canonStep none t1 = some t1 := rfl
  rw [hstep1]
  by_cases hlt : t2.create < t1.create
  · have hstep2 : canonStep (some t1) t2 = some t2 := by simp [canonStep, hlt]
    rw [hstep2, if_pos hlt]
    show List.map Transaction.id (List.filter (isDupOf t2) [t1, t2]) = [t1.id]
    have hd1 : isDupOf t2 t1 = true := by simp [isDupOf, hlt, hcard1]
    have hd2 : isDupOf t2 t2 = false := by simp [isDupOf]
    rw [List.filter_cons_of_pos hd1, List.filter_cons_of_neg (by simp [hd2])]
    simp
  · have hstep2 : canonStep (some t1) t2 = some t1 := by simp [canonStep, hlt]
    rw [hstep2, if_neg hlt]
    show List.map Transaction.id (List.filter (isDupOf t1) [t1, t2]) = []
    have hne : t2.paymt_purpose ≠ t1.paymt_purpose := by
      intro h
      rw [h, hcard1] at hcard2
      exact Bool.noConfusion hcard2
    have hd1 : isDupOf t1 t1 = false := by simp [isDupOf]
    have hd2 : isDupOf t1 t2 = false := by simp [isDupOf, hcard2, hne]
    rw [List.filter_cons_of_neg (by simp [hd1]), List.filter_cons_of_neg (by simp [hd2])]
    simp

/-- Claim C1 witness: with the card-pattern member created later (time 5 vs
time 3) the plan contains exactly its ID. -/
theorem claim_C1_witness :
    reconciliationPlan [txCardLate, txRentEarly] = [1] := by
  rw [claim_C1_theorem txCardLate txRentEarly ((⟨2024, 3, 1⟩ : Date), (-42 : ℚ))
    (by with_unfolding_all decide) (by with_unfolding_all decide) (by decide) (by decide)]
  decide

/-! ### Claim C2 -/

/-- Claim C2 counterexample: the amounts `1.0` and `1.0000000000000000001`
are different exact decimals (in any formatting), yet the two transactions
land in the same group because the code compares `float(str(amount))` values
and both decimals round to the binary64 value `1.0`.  Amount equality IS
decided by a floating-point approximation. -/
theorem claim_C2_counterexample :
    parseDecimal "1.0" ≠ parseDecimal "1.0000000000000000001"
    ∧ find_duplicate_transactions
        [⟨1, some "2024-03-01", some "1.0", 0, "a"⟩,
         ⟨2, some "2024-03-01", some "1.0000000000000000001", 1, "b"⟩] =
      [((⟨2024, 3, 1⟩, (1 : ℚ)),
        [⟨1, some "2024-03-01", some "1.0", 0, "a"⟩,
         ⟨2, some "2024-03-01", some "1.0000000000000000001", 1, "b"⟩])] := by
  refine ⟨by with_unfolding_all decide, by with_unfolding_all decide⟩

/-- Claim C2 (amended): grouping compares amounts after rounding the exact
decimal value to the nearest binary64 (`float`) value.  Any two transactions
whose dates parse to the same calendar date and whose amount strings denote
the same exact decimal value (in possibly different formattings) always land
in the same group — but so do distinct decimals that round to the same
binary64 value, so equality is decided by the floating-point approximation,
not by the exact decimal representation. -/
theorem claim_C2_theorem (l : List Transaction) (t1 t2 : Transaction)
    (ht1 : t1 ∈ l) (ht2 : t2 ∈ l) (hid : t1.id ≠ t2.id)
    (ds1 ds2 as1 as2 : String) (d : Date) (q : ℚ)
    (he1 : t1.entry_date = some ds1) (he2 : t2.entry_date = some ds2)
    (hd1 : parseISODate ds1 = some d) (hd2 : parseISODate ds2 = some d)
    (ha1 : t1.amount = some as1) (ha2 : t2.amount = some as2)
    (hq1 : parseDecimal as1 = some q) (hq2 : parseDecimal as2 = some q) :
    ∃ g, ((d, toDouble q), g) ∈ find_duplicate_transactions l ∧ t1 ∈ g ∧ t2 ∈ g := by
  have hk1 : txKey t1 = some (d, toDouble q) := by
    unfold txKey
    rw [he1, ha1]
    simp [pyFloat, hd1, hq1]
  have hk2 : txKey t2 = some (d, toDouble q) := by
    unfold txKey
    rw [he2, ha2]
    simp [pyFloat, hd2, hq2]
  have hg1 : t1 ∈ groupOf l (d, toDouble q) := (mem_groupOf l _ t1).mpr ⟨ht1, hk1⟩
  have hg2 : t2 ∈ groupOf l (d, toDouble q) := (mem_groupOf l _ t2).mpr ⟨ht2, hk2⟩
  have hne : t1 ≠ t2 := fun h => hid (congrArg Transaction.id h)
  have hlen : 2 ≤ (groupOf l (d, toDouble q)).length :=
    two_le_length_of_two_mem hg1 hg2 hne
  refine ⟨groupOf l (d, toDouble q), ?_, hg1, hg2⟩
  exact (find_dup_mem_iff l _ _).mpr
    ⟨List.mem_filterMap.mpr ⟨t1, ht1, hk1⟩, rfl, hlen⟩

/-- Claim C2 witness: `1.0` and `1.00` (different formattings of the same
decimal), with the dates `2024-03-01` and `2024-03-01T09:00:00` (same
calendar date), land in the same group. -/
theorem claim_C2_witness :
    ∃ g, (((⟨2024, 3, 1⟩ : Date), toDouble 1), g) ∈ find_duplicate_transactions
        [⟨1, some "2024-03-01", some "1.0", 0, "a"⟩,
         ⟨2, some "2024-03-01T09:00:00", some "1.00", 1, "b"⟩]
      ∧ (⟨1, some "2024-03-01", some "1.0", 0, "a"⟩ : Transaction) ∈ g
      ∧ (⟨2, some "2024-03-01T09:00:00", some "1.00", 1, "b"⟩ : Transaction) ∈ g :=
  claim_C2_theorem _ _ _ (by decide) (by decide) (by decide)
    "2024-03-01" "2024-03-01T09:00:00" "1.0" "1.00" ⟨2024, 3, 1⟩ 1
    rfl rfl (by decide) (by decide) rfl rfl
    (by with_unfolding_all decide) (by with_unfolding_all decide)

/-! ### Claim C3 -/

/-- Claim C3 counterexample: a group of two transactions with identical
`create` timestamps and identical purposes `Coffee`.  The second member is
non-canonical and rule 2 (purpose equality with the canonical) holds for it,
so by the claim it should be submitted to the classifier and added to the
plan — but the code's loop only examines members created STRICTLY later than
the canonical, so the plan stays empty. -/
theorem claim_C3_counterexample :
    find_duplicate_transactions [txCoffeeEarly, txCoffeeTie] =
        [((⟨2024, 3, 1⟩, (-42 : ℚ)), [txCoffeeEarly, txCoffeeTie])]
    ∧ selectCanonical [txCoffeeEarly, txCoffeeTie] = some txCoffeeEarly
    ∧ txCoffeeTie ≠ txCoffeeEarly
    ∧ txCoffeeTie.paymt_purpose = txCoffeeEarly.paymt_purpose
    ∧ reconciliationPlan [txCoffeeEarly, txCoffeeTie] = [] := by
  refine ⟨by with_unfolding_all decide, by decide, by decide, by decide,
    by with_unfolding_all decide⟩

/-- Claim C3 (amended): in a group with at least 2 members, the members
submitted to the classifier are exactly those with `create` STRICTLY greater
than the canonical's (members tying the canonical's `create`, like the
canonical itself, are skipped); such a member is added to the deletion plan
exactly when rule 1 (card pattern) or rule 2 (purpose equality with the
canonical) holds for it, and a member with `create` less than or equal to the
canonical's is never added. -/
theorem claim_C3_theorem (l : List Transaction) (k : Date × ℚ) (g : List Transaction)
    (_hg : (k, g) ∈ find_duplicate_transactions l)
    (hnd : (g.map Transaction.id).Nodup)
    (c : Transaction) (hc : selectCanonical g = some c)
    (m : Transaction) (hm : m ∈ g) :
    (c.create < m.create →
      (m.id ∈ duplicatesInGroup g ↔
        (cardPattern m.paymt_purpose = true ∨ m.paymt_purpose = c.paymt_purpose)))
    ∧ (¬ c.create < m.create → m.id ∉ duplicatesInGroup g) := by
  constructor
  · intro hlt
    rw [mem_dupGroup_iff hc hnd hm]
    unfold isDupOf
    simp [hlt]
  · intro hnlt
    rw [mem_dupGroup_iff hc hnd hm]
    unfold isDupOf
    simp [hnlt]

/-- Claim C3 witness: in the group of the two `Coffee` transactions created
at times 3 and 6, the strictly-later member is in the plan exactly because
rule 2 holds, and the canonical-tying case is vacuously excluded. -/
theorem claim_C3_witness :
    (txCoffeeEarly.create < txCoffeeLate.create →
      (txCoffeeLate.id ∈ duplicatesInGroup [txCoffeeEarly, txCoffeeLate] ↔
        (cardPattern txCoffeeLate.paymt_purpose = true
          ∨ txCoffeeLate.paymt_purpose = txCoffeeEarly.paymt_purpose)))
    ∧ (¬ txCoffeeEarly.create < txCoffeeLate.create →
        txCoffeeLate.id ∉ duplicatesInGroup [txCoffeeEarly, txCoffeeLate]) :=
  claim_C3_theorem [txCoffeeEarly, txCoffeeLate] (⟨2024, 3, 1⟩, (-42 : ℚ))
    [txCoffeeEarly, txCoffeeLate] (by with_unfolding_all decide) (by decide)
    txCoffeeEarly (by decide) txCoffeeLate (by decide)

/-! ### Claim C4 -/

/-- Claim C4 counterexample: the purpose `Card transaction of 12.34 (AB)`
has a TWO-letter parenthesised code, so the spec's "three-letter currency
code" pattern rejects it, but the code's regular expression `[A-Z]+` accepts
it and rule 1 fires. -/
theorem claim_C4_counterexample :
    cardPattern "Card transaction of 12.34 (AB)" = true
    ∧ cardPatternSpecThreeLetter "Card transaction of 12.34 (AB)" = false := by
  exact ⟨by decide, by decide⟩

/-- Claim C4 (amended): rule 1 fires for a member `m` exactly when
`m.paymt_purpose` contains a substring of the form `Card transaction of `
followed by a decimal amount (`digits.digits`) and ONE OR MORE uppercase
letters in parentheses; and when it fires for a member created strictly
later than the canonical, the member is classified as a duplicate
irrespective of the canonical's purpose. -/
theorem claim_C4_theorem :
    (∀ s : String, cardPattern s = true ↔ CardShape s)
    ∧ (∀ (g : List Transaction) (c m : Transaction), selectCanonical g = some c →
        m ∈ g → c.create < m.create → cardPattern m.paymt_purpose = true →
        m.id ∈ duplicatesInGroup g) := by
  constructor
  · exact cardPattern_iff_CardShape
  · intro g c m hc hm hlt hcard
    unfold duplicatesInGroup
    rw [hc]
    exact List.mem_map.mpr ⟨m, List.mem_filter.mpr ⟨hm, by simp [isDupOf, hlt, hcard]⟩, rfl⟩

/-- Claim C4 witness: the card-pattern member created later than a canonical
with an entirely different purpose (`Rent`) is classified as a duplicate. -/
theorem claim_C4_witness :
    CardShape "Card transaction of 42.00 (EUR)"
    ∧ txCardLate.id ∈ duplicatesInGroup [txRentEarly, txCardLate] :=
  ⟨(claim_C4_theorem.1 "Card transaction of 42.00 (EUR)").mp (by decide),
   claim_C4_theorem.2 [txRentEarly, txCardLate] txRentEarly txCardLate
     (by decide) (by decide) (by decide) (by decide)⟩

/-! ### Claim C5 -/

/-- Claim C5: for every group produced by `find_duplicate_transactions`
(hence with at least 2 members), canonical selection returns a member
attaining the minimum `create`; every member placed before it in the group's
input order has a strictly greater `create`, so the canonical is the FIRST
member attaining the minimum, and selection is a deterministic function of
the input sequence. -/
theorem claim_C5_theorem (l : List Transaction) (k : Date × ℚ) (g : List Transaction)
    (hg : (k, g) ∈ find_duplicate_transactions l) :
    ∃ pre c post, selectCanonical g = some c ∧ g = pre ++ c :: post
      ∧ (∀ t ∈ g, c.create ≤ t.create)
      ∧ (∀ t ∈ pre, c.create < t.create) := by
  have hne : g ≠ [] := by
    rw [find_dup_mem_iff] at hg
    obtain ⟨_, rfl, h2⟩ := hg
    intro h
    rw [h] at h2
    simp at h2
  obtain ⟨pre, c, post, hsel, hdec, hpre, _⟩ := selectCanonical_spec g hne
  exact ⟨pre, c, post, hsel, hdec, selectCanonical_min hsel, hpre⟩

/-- Claim C5 witness: the two-`Coffee` group at times 3 and 6. -/
theorem claim_C5_witness :
    ∃ pre c post, selectCanonical [txCoffeeEarly, txCoffeeLate] = some c
      ∧ [txCoffeeEarly, txCoffeeLate] = pre ++ c :: post
      ∧ (∀ t ∈ [txCoffeeEarly, txCoffeeLate], c.create ≤ t.create)
      ∧ (∀ t ∈ pre, c.create < t.create) :=
  claim_C5_theorem [txCoffeeEarly, txCoffeeLate] (⟨2024, 3, 1⟩, (-42 : ℚ))
    [txCoffeeEarly, txCoffeeLate] (by with_unfolding_all decide)

/-! ### Claim C6 -/

/-- Claim C6 (plan soundness): when the fetched transactions have pairwise
distinct IDs (the ledger's own invariant), every ID in the reconciliation
plan belongs to some `(entry_date, amount)` group with at least 2 members
and differs from the ID of that group's canonical record. -/
theorem claim_C6_theorem (l : List Transaction) (hnd : (l.map Transaction.id).Nodup)
    (i : Int) (hi : i ∈ reconciliationPlan l) :
    ∃ k g c, (k, g) ∈ find_duplicate_transactions l ∧ 2 ≤ g.length
      ∧ i ∈ g.map Transaction.id
      ∧ selectCanonical g = some c ∧ i ≠ c.id := by
  unfold reconciliationPlan at hi
  rw [List.mem_flatMap] at hi
  obtain ⟨⟨k, g⟩, hkg, hig⟩ := hi
  obtain ⟨hk, hgeq, h2⟩ := (find_dup_mem_iff l k g).mp hkg
  have hsub : g.Sublist l := by
    rw [hgeq]
    exact List.filter_sublist l
  have hndg : (g.map Transaction.id).Nodup := (hsub.map Transaction.id).nodup hnd
  unfold duplicatesInGroup at hig
  cases hcs : selectCanonical g with
  | none =>
    rw [hcs] at hig
    simp at hig
  | some c =>
    rw [hcs] at hig
    simp only [List.mem_map] at hig
    obtain ⟨m, hmf, hmi⟩ := hig
    rw [List.mem_filter] at hmf
    obtain ⟨hm, hdup⟩ := hmf
    refine ⟨k, g, c, hkg, by rw [hgeq]; exact h2, List.mem_map.mpr ⟨m, hm, hmi⟩, hcs, ?_⟩
    intro hic
    have hmeq : m = c :=
      List.inj_on_of_nodup_map hndg hm (selectCanonical_mem hcs) (by rw [hmi, hic])
    have hmlt : c.create < m.create := by
      unfold isDupOf at hdup
      simp only [Bool.and_eq_true, decide_eq_true_eq] at hdup
      exact hdup.1
    rw [hmeq] at hmlt
    exact lt_irrefl _ hmlt

/-- Claim C6 witness: the two-`Coffee` run where ID 2 is planned for
deletion. -/
theorem claim_C6_witness :
    ∃ k g c, (k, g) ∈ find_duplicate_transactions [txCoffeeEarly, txCoffeeLate]
      ∧ 2 ≤ g.length
      ∧ (2 : Int) ∈ g.map Transaction.id
      ∧ selectCanonical g = some c ∧ (2 : Int) ≠ c.id :=
  claim_C6_theorem [txCoffeeEarly, txCoffeeLate] (by decide) 2
    (by with_unfolding_all decide)

/-! ### Claim C7 -/

/-- Claim C7 (deletion isolation): under confirmed execution of an `N`-item
plan whose deletion sink fails exactly on the `k`-th item and succeeds on
every other, all `N` items are attempted, in plan order, the run does not
abort, and the summary counts are `succeeded = N - 1` and `failed = 1`. -/
theorem claim_C7_theorem (plan : List Int) (sink : Int → Bool) (k : Nat)
    (hk : k < plan.length) (hnd : plan.Nodup)
    (hsink : ∀ x, sink x = true ↔ x ≠ plan.get ⟨k, hk⟩) :
    executionGate false true sink plan =
      (.executed (plan.length - 1) 1, plan) := by
  have hne : plan ≠ [] := by
    intro h
    subst h
    exact absurd hk (by simp)
  have ha : plan.get ⟨k, hk⟩ ∈ plan := List.get_mem plan k hk
  have hfil1 : plan.filter sink = plan.filter (fun x => decide (x ≠ plan.get ⟨k, hk⟩)) := by
    apply List.filter_congr
    intro x _
    by_cases hxa : x = plan.get ⟨k, hk⟩
    · have hsf : sink x = false := by
        cases hsx : sink x with
        | false => rfl
        | true => exact absurd ((hsink x).mp hsx) (by simp [hxa])
      rw [hsf, hxa]
      simp
    · rw [(hsink x).mpr hxa]
      simp
      exact hxa
  have hfil2 : plan.filter (fun x => !(sink x)) =
      plan.filter (fun x => decide (x = plan.get ⟨k, hk⟩)) := by
    apply List.filter_congr
    intro x _
    by_cases hxa : x = plan.get ⟨k, hk⟩
    · have hsf : sink x = false := by
        cases hsx : sink x with
        | false => rfl
        | true => exact absurd ((hsink x).mp hsx) (by simp [hxa])
      rw [hsf, hxa]
      simp
    · rw [(hsink x).mpr hxa]
      simp
      exact hxa
  have hone : (plan.filter (fun x => decide (x = plan.get ⟨k, hk⟩))).length = 1 :=
    length_filter_eq_single hnd ha
  have hsplit := length_filter_split (fun x => decide (x = plan.get ⟨k, hk⟩)) plan
  have hnot : plan.filter (fun x => !(decide (x = plan.get ⟨k, hk⟩))) =
      plan.filter (fun x => decide (x ≠ plan.get ⟨k, hk⟩)) := by
    apply List.filter_congr
    intro x _
    simp [decide_not]
  have hlen1 : (plan.filter (fun x => decide (x ≠ plan.get ⟨k, hk⟩))).length =
      plan.length - 1 := by
    rw [← hnot]
    omega
  unfold executionGate
  rw [if_neg (by simp [hne]), if_neg (by simp), if_pos rfl, runDeletions_eq]
  rw [hfil1, hfil2, hone, hlen1]

/-- Claim C7 witness: a three-item plan whose sink fails exactly on the
middle item reports one failure and two successes and attempts all three. -/
theorem claim_C7_witness :
    executionGate false true (fun x => decide (x ≠ 20)) [10, 20, 30] =
      (.executed 2 1, [10, 20, 30]) :=
  claim_C7_theorem [10, 20, 30] (fun x => decide (x ≠ 20)) 1 (by decide) (by decide)
    (fun x => by simp)

/-! ### Claim C8 -/

/-- Claim C8: a transaction whose date or amount is missing or unparsable is
excluded from every group, increments the skipped count by one, and the rest
of the input is grouped exactly as if the bad record were absent (grouping is
total, so the run never aborts on such a record). -/
theorem claim_C8_theorem (l1 l2 : List Transaction) (b : Transaction)
    (hb : txKey b = none) :
    find_duplicate_transactions (l1 ++ b :: l2) = find_duplicate_transactions (l1 ++ l2)
    ∧ (∀ k g, (k, g) ∈ find_duplicate_transactions (l1 ++ b :: l2) → b ∉ g)
    ∧ skippedCount (l1 ++ b :: l2) = skippedCount (l1 ++ l2) + 1 := by
  have hkeys : (l1 ++ b :: l2).filterMap txKey = (l1 ++ l2).filterMap txKey := by
    simp [List.filterMap_append, List.filterMap_cons, hb]
  have hgrp : ∀ k, groupOf (l1 ++ b :: l2) k = groupOf (l1 ++ l2) k := by
    intro k
    unfold groupOf
    simp only [List.filter_append, List.filter_cons]
    rw [if_neg (by simp [hb])]
  refine ⟨?_, ?_, ?_⟩
  · unfold find_duplicate_transactions
    rw [hkeys]
    congr 1
    funext k
    rw [hgrp k]
  · intro k g hkg hbg
    obtain ⟨_, rfl, _⟩ := (find_dup_mem_iff _ k g).mp hkg
    rw [mem_groupOf] at hbg
    rw [hb] at hbg
    exact Option.noConfusion hbg.2
  · unfold skippedCount
    simp only [List.filter_append, List.filter_cons]
    rw [if_pos (by simp [hb])]
    simp only [List.length_append, List.length_cons]
    omega

/-- Claim C8 witness: a record with a missing date, inserted between the two
`Coffee` records, changes neither the groups nor the plan membership, and is
counted as skipped. -/
theorem claim_C8_witness :
    find_duplicate_transactions
        [txCoffeeEarly, ⟨3, none, some "1.0", 0, "x"⟩, txCoffeeLate] =
      find_duplicate_transactions [txCoffeeEarly, txCoffeeLate]
    ∧ (∀ k g, (k, g) ∈ find_duplicate_transactions
        [txCoffeeEarly, ⟨3, none, some "1.0", 0, "x"⟩, txCoffeeLate] →
        (⟨3, none, some "1.0", 0, "x"⟩ : Transaction) ∉ g)
    ∧ skippedCount [txCoffeeEarly, ⟨3, none, some "1.0", 0, "x"⟩, txCoffeeLate] =
        skippedCount [txCoffeeEarly, txCoffeeLate] + 1 :=
  claim_C8_theorem [txCoffeeEarly] [txCoffeeLate] ⟨3, none, some "1.0", 0, "x"⟩ rfl

/-! ### Claim C9 -/

/-- Claim C9: in simulation (dry-run) mode with a non-empty plan, the gate
reports the plan (its size) and returns; the list of issued deletion calls is
empty, so the remote ledger is untouched by the execution phase. -/
theorem claim_C9_theorem (plan : List Int) (hne : plan ≠ []) (confirm : Bool)
    (sink : Int → Bool) :
    executionGate true confirm sink plan = (.dryRunReport plan.length, []) := by
  unfold executionGate
  rw [if_neg (by simp [hne])]
  simp

/-- Claim C9 witness: dry-run on a one-item plan issues no deletion call even
with a confirming user and an always-succeeding sink. -/
theorem claim_C9_witness :
    executionGate true true (fun _ => true) [5] = (.dryRunReport 1, []) :=
  claim_C9_theorem [5] (by decide) true (fun _ => true)

/-! ### Claim C10 -/

/-- Claim C10: in dry-run mode, when no sevDesk account with the generated
name exists (neither in the preloaded cache nor in the name-filtered
refetch), `get_or_create_account_id` dies instead of creating an account,
and `main` exits with code 1 before fetching, grouping or reporting — the
duplicate-analysis phase is never reached. -/
theorem claim_C10_theorem (byName refetch : String → Option Int)
    (createResult : Option Int) (identifier currency : String)
    (txs : List Transaction) (confirm : Bool) (sink : Int → Bool)
    (hname : byName (generate_account_name identifier currency) = none)
    (hre : refetch (generate_account_name identifier currency) = none) :
    get_or_create_account_id byName refetch createResult true identifier currency =
      .died "Cannot proceed in dry run without an existing account."
    ∧ mainModel
        (get_or_create_account_id byName refetch createResult true identifier currency)
        txs true confirm sink = .exited 1 := by
  have h1 : get_or_create_account_id byName refetch createResult true identifier currency =
      .died "Cannot proceed in dry run without an existing account." := by
    simp only [get_or_create_account_id]
    rw [hname, hre]
    simp
  exact ⟨h1, by rw [h1]; rfl⟩

/-- Claim C10 witness: an empty account universe in dry-run mode exits with
code 1 and never reaches analysis. -/
theorem claim_C10_witness :
    get_or_create_account_id (fun _ => none) (fun _ => none) none true "ACC" "EUR" =
      .died "Cannot proceed in dry run without an existing account."
    ∧ mainModel
        (get_or_create_account_id (fun _ => none) (fun _ => none) none true "ACC" "EUR")
        [txCoffeeEarly, txCoffeeLate] true false (fun _ => true) = .exited 1 :=
  claim_C10_theorem (fun _ => none) (fun _ => none) none "ACC" "EUR"
    [txCoffeeEarly, txCoffeeLate] false (fun _ => true) rfl rfl

end SevdeskDedup
